import Mathlib

/-!
Shallow embedding of the `s3fs` Go package (`s3fs.go`): a read-only `io/fs`
implementation backed by an S3-like object store.  Go strings are modelled as
`List Char`, the S3 client as a pure response function (one list of pages per
listing prefix, one `Except` result per get-object key), `fs.FileMode` as a
`Nat` bitmask (`0400 = 256`, `fs.ModeDir = 2^31`), and timestamps as `Int`.
Transport failure of the paginated listing call is not modelled (no claim
concerns it); get-object failure is, since `openFile` branches on it.
-/

/-- Go strings, modelled as lists of characters. -/
abbrev Str := List Char

/-- One object record of an S3 `ListObjectsV2` page (`page.Contents` element). -/
structure S3Object where
  key : Str
  size : Int
  lastModified : Int
deriving Repr, DecidableEq

/-- One page of an S3 `ListObjectsV2Pages` response. -/
structure ListPage where
  contents : List S3Object
  commonPrefixes : List Str
deriving Repr, DecidableEq

/-- Result of an S3 `GetObject` call. -/
structure GetObjectOutput where
  body : List UInt8
  contentLength : Int
  lastModified : Int
deriving Repr, DecidableEq

/-- Go error values as the package can produce and inspect them:
`fs.ErrNotExist`, `io.EOF`, opaque client errors (e.g. an AWS error with a
code string), plain `fmt.Errorf` messages, and `fmt.Errorf("...: %w", err)`
wrapping. -/
inductive GoErr where
  | errNotExist
  | ioEOF
  | awsErr (code : Str)
  | errorf (msg : Str)
  | wrapped (msg : Str) (cause : GoErr)
deriving Repr, DecidableEq

/-- The semantics of Go `errors.Is(err, fs.ErrNotExist)`: unwrap the
`%w` chain and compare with `fs.ErrNotExist`. -/
def GoErr.isNotExist : GoErr → Bool
  | .errNotExist => true
  | .wrapped _ e => e.isNotExist
  | _ => false

/-- The external S3 client, as the package uses it: `listPages p` is the page
sequence `ListObjectsV2Pages` delivers for `Delimiter "/"` and `Prefix p`
(the package always passes that fixed delimiter), and `getObject k` is the
result of `GetObject` on key `k`. -/
structure Client where
  listPages : Str → List ListPage
  getObject : Str → Except GoErr GetObjectOutput

/-- `fs.FileMode(0400)` (owner read-only permission bits). -/
def modeReadOnly : Nat := 256

/-- `fs.ModeDir` (bit 31 of `fs.FileMode`). -/
def modeDirBit : Nat := 2147483648

/-- Go `strings.TrimPrefix(s, pre)`: `s` without the leading `pre`, or `s`
unchanged when `pre` is not a prefix. -/
def goTrimLead (s pre : Str) : Str :=
  if pre.isPrefixOf s then s.drop pre.length else s

/-- Go `strings.TrimSuffix(s, suf)`: `s` without the trailing `suf`, or `s`
unchanged when `suf` is not a suffix. -/
def goTrimTrail (s suf : Str) : Str :=
  if suf.isSuffixOf s then s.take (s.length - suf.length) else s

/-- Go `path.Base`: empty path gives `"."`; otherwise strip trailing slashes,
take everything after the last slash, and give `"/"` when only slashes were
present. -/
def pathBase (p : Str) : Str :=
  if p = [] then ['.']
  else
    let q := (p.reverse.dropWhile (fun c => c = '/')).reverse
    let r := (q.reverse.takeWhile (fun c => c ≠ '/')).reverse
    if r = [] then ['/'] else r

/-- `trimName` from `s3fs.go`: rejects `"./."` and `"/"`, maps `"."` to the
empty (root) path, and otherwise strips one leading `"./"` and then one
trailing `"/"`. -/
def trimName (name : Str) : Except GoErr Str :=
  if name = ['.', '/', '.'] ∨ name = ['/'] then
    .error (.errorf ((("invalid name: ").data) ++ name))
  else if name = ['.'] then .ok []
  else .ok (goTrimTrail (goTrimLead name (['.', '/'])) (['/']))

/-- `s3FileInfo` from `s3fs.go`: name, size, modification time and mode of one
node; it serves both as `fs.FileInfo` and as `fs.DirEntry`. -/
structure s3FileInfo where
  name : Str
  size : Int
  modTime : Int
  mode : Nat
deriving Repr, DecidableEq

/-- `s3FileInfo.IsDir`: Go `fi.Mode().IsDir()`, i.e. the `ModeDir` bit test. -/
def s3FileInfo.IsDir (fi : s3FileInfo) : Bool :=
  fi.mode &&& modeDirBit ≠ 0

/-- `s3File` from `s3fs.go`: an opened file (body stream plus metadata). -/
structure s3File where
  body : List UInt8
  fileInfo : s3FileInfo
deriving Repr, DecidableEq

/-- `s3File.Stat` returns the cached metadata. -/
def s3File.Stat (f : s3File) : s3FileInfo := f.fileInfo

/-- `s3Directory` from `s3fs.go`: the materialized entry list plus the read
cursor `ptr` and the directory's own metadata. -/
structure s3Directory where
  entries : List s3FileInfo
  ptr : Nat
  fileInfo : s3FileInfo
deriving Repr, DecidableEq

/-- `s3Directory.Stat` returns the cached metadata. -/
def s3Directory.Stat (d : s3Directory) : s3FileInfo := d.fileInfo

/-- `s3Directory.ReadDir` from `s3fs.go`.  For `n <= 0` it returns every entry
from the cursor on and moves the cursor to the end; for `n > 0` it returns the
entries from the cursor up to `min (ptr+n) len` and moves the cursor there,
returning `io.EOF` instead when that slice is empty.  The returned pair is
(result, updated receiver). -/
def s3Directory.ReadDir (d : s3Directory) (n : Int) :
    Except GoErr (List s3FileInfo) × s3Directory :=
  if n ≤ 0 then
    (.ok (d.entries.drop d.ptr), { d with ptr := max d.ptr d.entries.length })
  else
    let target := min (d.ptr + n.toNat) d.entries.length
    let out := (d.entries.take target).drop d.ptr
    if out = [] then
      (.error .ioEOF, { d with ptr := max d.ptr target })
    else
      (.ok out, { d with ptr := max d.ptr target })

/-- The polymorphic `fs.File` result of `Open`: a file or a directory. -/
inductive FsFile where
  | file (f : s3File)
  | dir (d : s3Directory)
deriving Repr, DecidableEq

/-- `openDir` from `s3fs.go`: list with `Delimiter "/"` and `Prefix name`,
turn every object of every page into a file entry and every common prefix
into a directory entry (objects first, then prefixes, per page, pages in
fetch order), fail with `fs.ErrNotExist` when no entry was produced, and
otherwise return the directory with its cursor at 0. -/
def openDir (s : Client) (name : Str) : Except GoErr FsFile :=
  let entries := (s.listPages name).foldl
    (fun acc page =>
      (acc ++ page.contents.map (fun obj =>
        { name := pathBase obj.key
          size := obj.size
          modTime := obj.lastModified
          mode := modeReadOnly : s3FileInfo }))
      ++ page.commonPrefixes.map (fun cp =>
        { name := pathBase cp
          size := 0
          modTime := 0
          mode := modeReadOnly ||| modeDirBit : s3FileInfo }))
    []
  if entries = [] then .error .errNotExist
  else .ok (.dir
    { entries := entries
      ptr := 0
      fileInfo :=
        { name := pathBase name
          size := 0
          modTime := 0
          mode := modeReadOnly ||| modeDirBit } })

/-- `openFile` from `s3fs.go`: `GetObject` on the exact key; any client error
is wrapped as `fmt.Errorf("error getting s3 object: %w", err)`; on success the
body and metadata are packed into an `s3File`. -/
def openFile (s : Client) (name : Str) : Except GoErr FsFile :=
  match s.getObject name with
  | .error e => .error (.wrapped (("error getting s3 object").data) e)
  | .ok object => .ok (.file
    { body := object.body
      fileInfo :=
        { name := pathBase name
          size := object.contentLength
          modTime := object.lastModified
          mode := modeReadOnly } })

/-- `Open` from `s3fs.go` (method `Open` of `s3FS`): trim the name, special
case the root, otherwise list with the name as prefix, scan all pages for an
exact object-key match and an exact `name+"/"` common-prefix match, and branch:
both matches give the ambiguity error, a file match opens the file, a
directory match opens the directory under `name+"/"`, neither gives
`fs.ErrNotExist`. -/
def Open (s : Client) (name0 : Str) : Except GoErr FsFile :=
  match trimName name0 with
  | .error e => .error (.wrapped (("could not format filename").data) e)
  | .ok name =>
    if name = [] then openDir s name
    else
      let pages := s.listPages name
      let fileMatch := pages.any (fun page =>
        page.contents.any (fun obj => obj.key = name))
      let dirMatch := pages.any (fun page =>
        page.commonPrefixes.any (fun cp => name ++ ['/'] = cp))
      if fileMatch && dirMatch then
        .error (.errorf ((("directory name matches file name: ").data) ++ name))
      else if fileMatch then openFile s name
      else if dirMatch then openDir s (name ++ ['/'])
      else .error .errNotExist

/-- The `Prefix` arguments of the `ListObjectsV2Pages` round-trips `Open`
performs, in call order, mirroring `Open`'s control flow: the root branch
goes straight to `openDir` (one listing with prefix `""`); every other branch
first lists with prefix `name` for resolution, and the directory branch then
enters `openDir`, which issues its own listing with prefix `name+"/"`. -/
def openListingCalls (s : Client) (name0 : Str) : List Str :=
  match trimName name0 with
  | .error _ => []
  | .ok name =>
    if name = [] then [name]
    else
      let pages := s.listPages name
      let fileMatch := pages.any (fun page =>
        page.contents.any (fun obj => obj.key = name))
      let dirMatch := pages.any (fun page =>
        page.commonPrefixes.any (fun cp => name ++ ['/'] = cp))
      if fileMatch && dirMatch then [name]
      else if fileMatch then [name]
      else if dirMatch then [name, name ++ ['/']]
      else [name]

/-- Spec-side restatement of the normalization rules of spec §4.1, in the
spec's order: root spelling first, then the two disallowed forms, then one
leading `"./"` strip followed by one trailing `"/"` strip.  The `InvalidName`
failure is rendered with the same message the code produces, so that the
refinement can be stated as an equality. -/
def normalizeSpec (raw : Str) : Except GoErr Str :=
  if raw = ['.'] then .ok []
  else if raw = ['/'] ∨ raw = ['.', '/', '.'] then
    .error (.errorf ((("invalid name: ").data) ++ raw))
  else .ok (goTrimTrail (goTrimLead raw (['.', '/'])) (['/']))

/-- Spec-side entry built from one listed object (spec §4.3): not a
directory, name the last segment of the key, size and modTime copied. -/
def objEntrySpec (obj : S3Object) : s3FileInfo :=
  { name := pathBase obj.key
    size := obj.size
    modTime := obj.lastModified
    mode := modeReadOnly }

/-- Spec-side entry built from one listed common prefix (spec §4.3): a
directory, name the last segment of the prefix with the trailing separator
stripped, size 0. -/
def cpEntrySpec (cp : Str) : s3FileInfo :=
  { name := pathBase cp
    size := 0
    modTime := 0
    mode := modeReadOnly ||| modeDirBit }

/-- Spec-side entry sequence of one listing page (spec §3 ordering): all
objects in page order, then all common prefixes in page order. -/
def pageEntriesSpec (page : ListPage) : List s3FileInfo :=
  page.contents.map objEntrySpec ++ page.commonPrefixes.map cpEntrySpec

/-- Entry list carried by a `ReadDir` result: the list on success, `[]` on
error. -/
def okList : Except GoErr (List s3FileInfo) → List s3FileInfo
  | .ok l => l
  | .error _ => []

/-- A client over a store with no objects: every listing is empty and every
get fails with the client's not-found error. -/
def emptyClient : Client :=
  ⟨fun _ => [], fun _ => .error (.awsErr (("NoSuchKey").data))⟩

/-- A client over a store containing the keys `foo` (an object) and
`foo/bar`, so that listing with prefix `foo` returns the object `foo` and
the common prefix `foo/`. -/
def ambClient : Client :=
  ⟨fun p =>
      if p = ("foo").data then
        [⟨[⟨("foo").data, 3, 3⟩], [("foo/").data]⟩]
      else [],
    fun _ => .error (.awsErr (("NoSuchKey").data))⟩

/-- A client over a store containing only the key `f`, whose get-object call
always reports the client not-found error (modelling the delete race between
resolution and `GetObject`). -/
def nfClient : Client :=
  ⟨fun p => if p = ['f'] then [⟨[⟨['f'], 1, 1⟩], []⟩] else [],
    fun _ => .error (.awsErr (("NoSuchKey").data))⟩

/-- A client over a store containing only the key `x/y`: listing with prefix
`x` yields the common prefix `x/`, listing with prefix `x/` yields the object
`x/y`. -/
def dirClient : Client :=
  ⟨fun p =>
      if p = ['x'] then [⟨[], [['x', '/']]⟩]
      else if p = ['x', '/'] then [⟨[⟨['x', '/', 'y'], 1, 1⟩], []⟩]
      else [],
    fun _ => .error (.awsErr (("NoSuchKey").data))⟩

/-- The directory value `Open dirClient "x"` produces. -/
def xDir : s3Directory :=
  { entries := [⟨['y'], 1, 1, 256⟩]
    ptr := 0
    fileInfo := ⟨['x'], 0, 0, 2147483904⟩ }

/-- Three concrete file entries for cursor experiments. -/
def eA : s3FileInfo := ⟨['a'], 1, 1, 256⟩

/-- Second concrete file entry. -/
def eB : s3FileInfo := ⟨['b'], 2, 2, 256⟩

/-- Third concrete file entry. -/
def eC : s3FileInfo := ⟨['c'], 3, 3, 256⟩

/-- A concrete directory with three entries and the cursor at 0. -/
def dThree : s3Directory :=
  { entries := [eA, eB, eC]
    ptr := 0
    fileInfo := ⟨['d'], 0, 0, 2147483904⟩ }

/-- C5: `trimName` implements exactly the ordered normalization rules of the
spec — `"."` maps to the empty root path, `"/"` and `"./."` fail with the
invalid-name error, and every other input has one leading `"./"` and then one
trailing `"/"` stripped, with no further rewriting; as a Lean function it is
pure by construction. -/
theorem trimName_refines_normalizeSpec (raw : Str) :
    trimName raw = normalizeSpec raw := by
  by_cases h2 : raw = ['.']
  · subst h2; rfl
  · by_cases h1 : raw = ['.', '/', '.'] ∨ raw = ['/']
    · rcases h1 with h | h <;> (subst h; rfl)
    · have h1' : ¬(raw = ['/'] ∨ raw = ['.', '/', '.']) := fun h => h1 (Or.symm h)
      unfold trimName normalizeSpec
      rw [if_neg h1, if_neg h2, if_neg h2, if_neg h1']

/-- C6 counterexample: `trimName "/a"` succeeds and returns `"/a"`, which has
a leading separator, so the NormalizedPath invariant does not hold for every
input on which normalization succeeds. -/
theorem trimName_invariant_cx :
    trimName ['/', 'a'] = .ok (['/', 'a']) ∧ ['/'] <+: (['/', 'a']) :=
  ⟨rfl, ⟨['a'], rfl⟩⟩

/-- C6 amended: `trimName` strips at most one leading `"./"` and one trailing
`"/"`, so the NormalizedPath invariant (no leading separator, no leading
`"./"`, no trailing separator) holds for the result whenever the raw input
itself does not begin with `"/"`, `".//"` or `"././"` and does not end with
`"//"`. -/
theorem trimName_invariant (raw name : Str)
    (hok : trimName raw = .ok name)
    (h1 : ¬ ['/'] <+: raw)
    (h2 : ¬ ['.', '/', '/'] <+: raw)
    (h3 : ¬ ['.', '/', '.', '/'] <+: raw)
    (h4 : ¬ ['/', '/'] <:+ raw) :
    ¬ ['/'] <+: name ∧ ¬ ['.', '/'] <+: name ∧ ¬ ['/'] <:+ name := by
  unfold trimName at hok
  by_cases c1 : raw = ['.', '/', '.'] ∨ raw = ['/']
  case pos => rw [if_pos c1] at hok; exact absurd hok (by simp)
  rw [if_neg c1] at hok
  by_cases c2 : raw = ['.']
  case pos =>
    rw [if_pos c2] at hok
    obtain rfl : name = [] := (Except.ok.inj hok).symm
    refine ⟨?_, ?_, ?_⟩
    · rintro ⟨t, ht⟩; exact absurd ht (by simp)
    · rintro ⟨t, ht⟩; exact absurd ht (by simp)
    · rintro ⟨t, ht⟩; exact absurd ht (by simp)
  case neg =>
    rw [if_neg c2] at hok
    replace hok : name = goTrimTrail (goTrimLead raw (['.', '/'])) (['/']) :=
      (Except.ok.inj hok).symm
    have hr0 : ¬ ['/'] <+: goTrimLead raw (['.', '/']) ∧
        ¬ ['.', '/'] <+: goTrimLead raw (['.', '/']) ∧
        ¬ ['/', '/'] <:+ goTrimLead raw (['.', '/']) := by
      unfold goTrimLead
      by_cases hp : (['.', '/'] : Str).isPrefixOf raw
      · rw [if_pos hp]
        obtain ⟨t, ht⟩ := List.isPrefixOf_iff_prefix.mp hp
        have hdrop : raw.drop (['.', '/'] : Str).length = t := by rw [← ht]; rfl
        rw [hdrop]
        refine ⟨?_, ?_, ?_⟩
        · rintro ⟨u, hu⟩
          exact h2 ⟨u, by rw [← ht, ← hu]; rfl⟩
        · rintro ⟨u, hu⟩
          exact h3 ⟨u, by rw [← ht, ← hu]; rfl⟩
        · intro hsuf
          exact h4 (hsuf.trans (by rw [← hdrop]; exact List.drop_suffix _ raw))
      · rw [if_neg hp]
        exact ⟨h1, fun hc => hp ( List.isPrefixOf_iff_prefix.mpr hc), h4⟩
    obtain ⟨hr1, hr2, hr4⟩ := hr0
    rw [hok]
    unfold goTrimTrail
    by_cases hs : (['/'] : Str).isSuffixOf (goTrimLead raw (['.', '/']))
    · rw [if_pos hs]
      obtain ⟨u, hu⟩ := List.isSuffixOf_iff_suffix.mp hs
      have hlen : (goTrimLead raw (['.', '/'])).length - (['/'] : Str).length = u.length := by
        rw [← hu]; simp
      have htake : (goTrimLead raw (['.', '/'])).take u.length = u := by
        rw [← hu]
        exact List.take_left u ['/']
      rw [hlen, htake]
      refine ⟨?_, ?_, ?_⟩
      · rintro ⟨v, hv⟩
        exact hr1 ⟨v ++ ['/'], by rw [← hu, ← hv]; simp⟩
      · rintro ⟨v, hv⟩
        exact hr2 ⟨v ++ ['/'], by rw [← hu, ← hv]; simp⟩
      · rintro ⟨v, hv⟩
        exact hr4 ⟨v, by rw [← hu, ← hv]; simp⟩
    · rw [if_neg hs]
      exact ⟨hr1, hr2, fun hc => hs (List.isSuffixOf_iff_suffix.mpr hc)⟩

/-- C6 witness: for the input `"a/b/"`, normalization returns `"a/b"` and the
invariant holds. -/
theorem trimName_invariant_witness :
    ¬ ['/'] <+: (['a', '/', 'b']) ∧ ¬ ['.', '/'] <+: (['a', '/', 'b']) ∧
    ¬ ['/'] <:+ (['a', '/', 'b']) :=
  trimName_invariant (['a', '/', 'b', '/']) (['a', '/', 'b']) rfl
    (by decide) (by decide) (by decide) (by decide)

/-- Reduction of `ReadDir` for positive `n`: end-of-sequence when the cursor
is at or past the end, otherwise the next `n.toNat` entries and the advanced
cursor. -/
theorem readDir_pos_eq (d : s3Directory) (n : Int) (hn : 0 < n) :
    d.ReadDir n =
      if d.entries.length ≤ d.ptr then (.error .ioEOF, d)
      else (.ok ((d.entries.drop d.ptr).take n.toNat),
            { d with ptr := min (d.ptr + n.toNat) d.entries.length }) := by
  unfold s3Directory.ReadDir
  dsimp only
  rw [if_neg (by omega : ¬ n ≤ 0)]
  have ha : 1 ≤ n.toNat := by omega
  by_cases hpL : d.entries.length ≤ d.ptr
  · rw [if_pos hpL]
    have h1 : (d.entries.take (min (d.ptr + n.toNat) d.entries.length)).drop d.ptr
        = [] := by
      apply List.drop_eq_nil_of_le
      rw [List.length_take]
      omega
    rw [if_pos h1]
    have h2 : max d.ptr (min (d.ptr + n.toNat) d.entries.length) = d.ptr := by
      omega
    rw [h2]
  · rw [if_neg hpL]
    have hout : (d.entries.take (min (d.ptr + n.toNat) d.entries.length)).drop d.ptr
        = (d.entries.drop d.ptr).take n.toNat := by
      rw [List.drop_take]
      by_cases hc : d.ptr + n.toNat ≤ d.entries.length
      · have hmin : min (d.ptr + n.toNat) d.entries.length - d.ptr = n.toNat := by
          omega
        rw [hmin]
      · have hmin : min (d.ptr + n.toNat) d.entries.length = d.entries.length := by
          omega
        rw [hmin]
        rw [List.take_of_length_le (by rw [List.length_drop]),
          List.take_of_length_le (by rw [List.length_drop]; omega)]
    have hne : (d.entries.drop d.ptr).take n.toNat ≠ [] := by
      intro hc
      have := congrArg List.length hc
      rw [List.length_take, List.length_drop] at this
      simp at this
      omega
    rw [hout, if_neg hne]
    have h2 : max d.ptr (min (d.ptr + n.toNat) d.entries.length)
        = min (d.ptr + n.toNat) d.entries.length := by omega
    rw [h2]

/-- C4: the `ReadDir` cursor contract — `n <= 0` returns everything from the
cursor on, moves the cursor to the end and succeeds (in particular an empty
successful result after exhaustion); `n > 0` returns up to `n` entries from
the cursor and advances by that count, and returns `io.EOF` when the cursor
was already at the end. -/
theorem readDir_contract (d : s3Directory) (n : Int)
    (h : d.ptr ≤ d.entries.length) :
    (n ≤ 0 →
      d.ReadDir n = (.ok (d.entries.drop d.ptr),
        { d with ptr := d.entries.length })) ∧
    (0 < n → d.ptr < d.entries.length →
      d.ReadDir n = (.ok ((d.entries.drop d.ptr).take n.toNat),
        { d with ptr := min (d.ptr + n.toNat) d.entries.length })) ∧
    (0 < n → d.ptr = d.entries.length →
      d.ReadDir n = (.error .ioEOF, d)) ∧
    (n ≤ 0 → d.ptr = d.entries.length → (d.ReadDir n).1 = .ok []) := by
  refine ⟨?_, ?_, ?_, ?_⟩
  · intro hn
    unfold s3Directory.ReadDir
    rw [if_pos hn]
    have : max d.ptr d.entries.length = d.entries.length := by omega
    rw [this]
  · intro hn hlt
    rw [readDir_pos_eq d n hn, if_neg (by omega)]
  · intro hn heq
    rw [readDir_pos_eq d n hn, if_pos (by omega)]
  · intro hn heq
    unfold s3Directory.ReadDir
    rw [if_pos hn]
    simp [List.drop_eq_nil_of_le (le_of_eq heq.symm)]

/-- C4 witness: on a three-entry directory with the cursor at 0, `ReadDir 2`
returns the first two entries and advances the cursor to 2. -/
theorem readDir_contract_witness :
    dThree.ReadDir 2 = (.ok [eA, eB], { dThree with ptr := 2 }) := by
  have h := (readDir_contract dThree 2 (by decide)).2.1 (by decide) (by decide)
  exact h

/-- C3 counterexample: on a directory with 3 entries, `ReadDir 2` followed by
`ReadDir 2` returns 2 then 1 entries, but the second call — the call that
first exhausts the entry set — does not signal end-of-sequence; `io.EOF` only
appears on the third call. -/
theorem readDir_split_cx :
    ((dThree.ReadDir 2).2.ReadDir 2).1 = .ok [eC] ∧
    (((dThree.ReadDir 2).2.ReadDir 2).2.ReadDir 2).1 = .error .ioEOF :=
  ⟨rfl, rfl⟩

/-- C3 amended: for positive `n` and `m`, `ReadDir n` then `ReadDir m` on the
same reader returns the same entries, in the same order, and leaves the same
cursor as a single `ReadDir (n+m)` from the initial position (split
invariance); `io.EOF` is signalled exactly on the positive-`n` calls whose
starting cursor is already at or past the end — i.e. on the first call after
the set is exhausted, not on the call that returns the final entries. -/
theorem readDir_split (d : s3Directory) (n m : Int) (hn : 0 < n) (hm : 0 < m) :
    okList (d.ReadDir n).1 ++ okList ((d.ReadDir n).2.ReadDir m).1
        = okList (d.ReadDir (n + m)).1 ∧
    ((d.ReadDir n).2.ReadDir m).2 = (d.ReadDir (n + m)).2 ∧
    ((d.ReadDir n).1 = .error .ioEOF ↔ d.entries.length ≤ d.ptr) ∧
    (((d.ReadDir n).2.ReadDir m).1 = .error .ioEOF ↔
        d.entries.length ≤ (d.ReadDir n).2.ptr) := by
  have hnm : (0:Int) < n + m := by omega
  have hab : (n + m).toNat = n.toNat + m.toNat := by omega
  rw [readDir_pos_eq d n hn, readDir_pos_eq d (n + m) hnm]
  by_cases h1 : d.entries.length ≤ d.ptr
  · rw [if_pos h1, if_pos h1]
    rw [readDir_pos_eq d m hm, if_pos h1]
    exact ⟨rfl, rfl, iff_of_true rfl h1, iff_of_true rfl h1⟩
  · rw [if_neg h1, if_neg h1]
    rw [readDir_pos_eq _ m hm]
    by_cases h2 : d.ptr + n.toNat < d.entries.length
    · have hmin1 : min (d.ptr + n.toNat) d.entries.length = d.ptr + n.toNat := by
        omega
      rw [hmin1]
      rw [if_neg (show ¬ ({ d with ptr := d.ptr + n.toNat } : s3Directory).entries.length
          ≤ ({ d with ptr := d.ptr + n.toNat } : s3Directory).ptr by dsimp only; omega)]
      refine ⟨?_, ?_, ?_, ?_⟩
      · dsimp only
        simp only [okList, hab]
        rw [List.take_add, List.drop_drop]
      · dsimp only
        simp only [hab, Nat.add_assoc]
      · simp [h1]
      · dsimp only
        constructor
        · intro hc
          exact absurd hc (by simp)
        · intro hc
          omega
    · have hmin1 : min (d.ptr + n.toNat) d.entries.length = d.entries.length := by
        omega
      rw [hmin1]
      rw [if_pos (show ({ d with ptr := d.entries.length } : s3Directory).entries.length
          ≤ ({ d with ptr := d.entries.length } : s3Directory).ptr by dsimp only; omega)]
      refine ⟨?_, ?_, ?_, ?_⟩
      · dsimp only
        simp only [okList, List.append_nil]
        rw [List.take_of_length_le (by rw [List.length_drop]; omega),
          List.take_of_length_le (by rw [List.length_drop]; omega)]
      · dsimp only
        congr 1
        omega
      · simp [h1]
      · dsimp only
        simp

/-- C3 witness: the split invariance at the three-entry directory with
`n = m = 2`. -/
theorem readDir_split_witness :
    okList (dThree.ReadDir 2).1 ++ okList ((dThree.ReadDir 2).2.ReadDir 2).1
        = okList (dThree.ReadDir (2 + 2)).1 ∧
    ((dThree.ReadDir 2).2.ReadDir 2).2 = (dThree.ReadDir (2 + 2)).2 ∧
    ((dThree.ReadDir 2).1 = .error .ioEOF ↔ dThree.entries.length ≤ dThree.ptr) ∧
    (((dThree.ReadDir 2).2.ReadDir 2).1 = .error .ioEOF ↔
        dThree.entries.length ≤ (dThree.ReadDir 2).2.ptr) :=
  readDir_split dThree 2 2 (by decide) (by decide)

/-- The page fold of `openDir` appends, per page, the mapped objects and then
the mapped common prefixes; flattened out it is the page-order concatenation
described by the spec. -/
theorem openDir_fold_eq (pgs : List ListPage) (acc : List s3FileInfo) :
    pgs.foldl
      (fun acc page =>
        (acc ++ page.contents.map (fun obj =>
          { name := pathBase obj.key
            size := obj.size
            modTime := obj.lastModified
            mode := modeReadOnly : s3FileInfo }))
        ++ page.commonPrefixes.map (fun cp =>
          { name := pathBase cp
            size := 0
            modTime := 0
            mode := modeReadOnly ||| modeDirBit : s3FileInfo })) acc
    = acc ++ pgs.flatMap pageEntriesSpec := by
  induction pgs generalizing acc with
  | nil => simp
  | cons pg rest ih =>
    simp only [List.foldl_cons, List.flatMap_cons, ih]
    simp only [pageEntriesSpec, List.append_assoc]
    rfl

/-- Characterization of a successful `openDir`: the flattened page entries
are nonempty and the result is the directory holding exactly them, cursor 0,
with the read-only directory metadata. -/
theorem openDir_ok_iff (s : Client) (p : Str) (x : FsFile) :
    openDir s p = .ok x ↔
      (s.listPages p).flatMap pageEntriesSpec ≠ [] ∧
      x = .dir
        { entries := (s.listPages p).flatMap pageEntriesSpec
          ptr := 0
          fileInfo := ⟨pathBase p, 0, 0, modeReadOnly ||| modeDirBit⟩ } := by
  unfold openDir
  dsimp only
  rw [openDir_fold_eq, List.nil_append]
  by_cases hnil : (s.listPages p).flatMap pageEntriesSpec = []
  · rw [if_pos hnil]
    simp [hnil]
  · rw [if_neg hnil]
    constructor
    · intro h
      exact ⟨hnil, (Except.ok.inj h).symm⟩
    · rintro ⟨-, rfl⟩
      rfl

/-- C1 counterexample: over a store with no objects, `Open "."` returns
`fs.ErrNotExist` instead of succeeding as an empty directory. -/
theorem open_root_empty_store_cx :
    Open emptyClient ['.'] = .error .errNotExist := rfl

/-- C1 amended: opening the root is the directory branch with prefix `""`,
but when the store holds no objects the root listing produces no entries and
`Open "."` fails with `fs.ErrNotExist`; it does not succeed with an empty
enumeration. -/
theorem open_root_empty_store (s : Client)
    (h : ∀ page ∈ s.listPages [], page.contents = [] ∧ page.commonPrefixes = []) :
    Open s ['.'] = .error .errNotExist := by
  have hred : Open s ['.'] = openDir s [] := rfl
  rw [hred]
  have hflat : (s.listPages []).flatMap pageEntriesSpec = [] := by
    apply List.flatMap_eq_nil_iff.mpr
    intro pg hpg
    obtain ⟨hc, hcp⟩ := h pg hpg
    simp [pageEntriesSpec, hc, hcp]
  unfold openDir
  dsimp only
  rw [openDir_fold_eq, List.nil_append, if_pos hflat]

/-- C1 witness: the amended statement at the concrete empty client. -/
theorem open_root_empty_store_witness :
    Open emptyClient ['.'] = .error .errNotExist :=
  open_root_empty_store emptyClient (by intro pg hpg; simp [emptyClient] at hpg)

/-- C2: if the listing for a non-root normalized path contains both an object
whose key is exactly the path and a common prefix exactly `path + "/"`, then
`Open` fails with the ambiguity error `directory name matches file name:`
and never resolves as a file or a directory. -/
theorem open_ambiguous (s : Client) (raw name : Str)
    (hname : trimName raw = .ok name) (hroot : name ≠ [])
    (hfile : ∃ page ∈ s.listPages name, ∃ obj ∈ page.contents, obj.key = name)
    (hdir : ∃ page ∈ s.listPages name, name ++ ['/'] ∈ page.commonPrefixes) :
    Open s raw
      = .error (.errorf ((("directory name matches file name: ").data) ++ name)) := by
  have hfm : (s.listPages name).any
      (fun page => page.contents.any (fun obj => obj.key = name)) = true := by
    rcases hfile with ⟨pg, hpg, obj, hobj, hkey⟩
    exact List.any_eq_true.mpr
      ⟨pg, hpg, List.any_eq_true.mpr ⟨obj, hobj, decide_eq_true hkey⟩⟩
  have hdm : (s.listPages name).any
      (fun page => page.commonPrefixes.any (fun cp => name ++ ['/'] = cp)) = true := by
    rcases hdir with ⟨pg, hpg, hcp⟩
    exact List.any_eq_true.mpr
      ⟨pg, hpg, List.any_eq_true.mpr ⟨_, hcp, by simp⟩⟩
  simp only [Open, hname]
  rw [if_neg hroot, hfm, hdm]
  rfl

/-- C2 witness: a store holding key `foo` and key `foo/bar` makes
`Open "foo"` fail with the ambiguity error. -/
theorem open_ambiguous_witness :
    Open ambClient (("foo").data)
      = .error (.errorf ((("directory name matches file name: ").data)
          ++ ("foo").data)) := by
  apply open_ambiguous ambClient (("foo").data) (("foo").data) rfl (by decide)
  · exact ⟨⟨[⟨("foo").data, 3, 3⟩], [("foo/").data]⟩, by decide,
      ⟨("foo").data, 3, 3⟩, by decide, rfl⟩
  · exact ⟨⟨[⟨("foo").data, 3, 3⟩], [("foo/").data]⟩, by decide, by decide⟩

/-- C7 counterexample: when resolution picked the file branch and the
get-object call reports the client's not-found error, `Open` fails with the
wrapped transport error `error getting s3 object: ...`, which is not the
NotFound error (`errors.Is(err, fs.ErrNotExist)` is false). -/
theorem open_file_get_error_cx :
    Open nfClient ['f'] = .error (.wrapped (("error getting s3 object").data)
        (.awsErr (("NoSuchKey").data))) ∧
    (GoErr.wrapped (("error getting s3 object").data)
        (.awsErr (("NoSuchKey").data))).isNotExist = false :=
  ⟨rfl, rfl⟩

/-- C7 amended: when resolution picks the file branch and get-object then
fails — including the not-found race — `Open` surfaces the error wrapped as
`error getting s3 object: %w`; the wrapper is NotFound only if the client
error itself already was, so a client not-found is not reported as
`fs.ErrNotExist`. -/
theorem open_file_get_error (s : Client) (raw name : Str) (e : GoErr)
    (hname : trimName raw = .ok name) (hroot : name ≠ [])
    (hfm : (s.listPages name).any
      (fun page => page.contents.any (fun obj => obj.key = name)) = true)
    (hdm : (s.listPages name).any
      (fun page => page.commonPrefixes.any (fun cp => name ++ ['/'] = cp)) = false)
    (hget : s.getObject name = .error e) :
    Open s raw = .error (.wrapped (("error getting s3 object").data) e) ∧
    (GoErr.wrapped (("error getting s3 object").data) e).isNotExist
      = e.isNotExist := by
  constructor
  · simp only [Open, hname]
    rw [if_neg hroot, hfm, hdm]
    simp only [Bool.and_false, Bool.false_eq_true, if_false, if_true]
    unfold openFile
    rw [hget]
  · rfl

/-- C7 witness: the amended statement at the concrete racing client. -/
theorem open_file_get_error_witness :
    Open nfClient ['f'] = .error (.wrapped (("error getting s3 object").data)
        (.awsErr (("NoSuchKey").data))) ∧
    (GoErr.wrapped (("error getting s3 object").data)
        (.awsErr (("NoSuchKey").data))).isNotExist
      = (GoErr.awsErr (("NoSuchKey").data)).isNotExist :=
  open_file_get_error nfClient ['f'] ['f'] (.awsErr (("NoSuchKey").data))
    rfl (by decide) (by decide) (by decide) rfl

/-- C8 counterexample: over a store holding only the key `x/y`, `Open "x"`
performs two listing round-trips — prefix `x` for resolution and prefix `x/`
inside `openDir` — not one. -/
theorem open_dir_second_listing_cx :
    openListingCalls dirClient ['x'] = [['x'], ['x', '/']] ∧
    (openListingCalls dirClient ['x']).length = 2 :=
  ⟨rfl, rfl⟩

/-- C8 amended: when the directory branch is chosen for a non-root path, the
resolution listing is not reused; `Open` performs a second listing round-trip
with prefix `name + "/"` inside `openDir` to build the entry set, so exactly
two listing calls occur. -/
theorem open_dir_second_listing (s : Client) (raw name : Str)
    (hname : trimName raw = .ok name) (hroot : name ≠ [])
    (hfm : (s.listPages name).any
      (fun page => page.contents.any (fun obj => obj.key = name)) = false)
    (hdm : (s.listPages name).any
      (fun page => page.commonPrefixes.any (fun cp => name ++ ['/'] = cp)) = true) :
    openListingCalls s raw = [name, name ++ ['/']] := by
  simp only [openListingCalls, hname]
  rw [if_neg hroot, hfm, hdm]
  rfl

/-- C8 witness: the amended statement at the concrete one-key client. -/
theorem open_dir_second_listing_witness :
    openListingCalls dirClient ['x'] = [['x'], ['x'] ++ ['/']] :=
  open_dir_second_listing dirClient ['x'] ['x'] rfl (by decide) (by decide)
    (by decide)

/-- A take-while over an all-satisfying block passes through it. -/
theorem takeWhile_append_all (p : Char → Bool) (l m : List Char)
    (hl : ∀ c ∈ l, p c = true) :
    (l ++ m).takeWhile p = l ++ m.takeWhile p := by
  induction l with
  | nil => simp
  | cons a t ih =>
    have ha : p a = true := hl a (by simp)
    simp only [List.cons_append, List.takeWhile_cons, ha, if_true]
    rw [ih (fun c hc => hl c (by simp [hc]))]

/-- `path.Base` of a path ending in a slash-free nonempty segment after a
separator is that last segment. -/
theorem pathBase_mid_segment (pre seg : Str) (hne : seg ≠ [])
    (hs : ∀ c ∈ seg, c ≠ '/') :
    pathBase (pre ++ ('/' :: seg)) = seg := by
  obtain ⟨c, rest, hrev⟩ : ∃ c rest, seg.reverse = c :: rest := by
    cases hsr : seg.reverse with
    | nil =>
      exact absurd (by simpa using congrArg List.reverse hsr) hne
    | cons c rest => exact ⟨c, rest, rfl⟩
  have hcmem : c ∈ seg := by
    rw [← List.mem_reverse, hrev]
    simp
  have hcns : (decide (c = '/')) = false := decide_eq_false (hs c hcmem)
  have hrevfull : (pre ++ ('/' :: seg)).reverse
      = seg.reverse ++ ('/' :: pre.reverse) := by
    rw [List.reverse_append, List.reverse_cons]
    simp
  unfold pathBase
  rw [if_neg (by simp)]
  dsimp only
  have hdw : (pre ++ ('/' :: seg)).reverse.dropWhile (fun c => decide (c = '/'))
      = seg.reverse ++ ('/' :: pre.reverse) := by
    rw [hrevfull, hrev, List.cons_append, List.dropWhile_cons]
    simp only [hcns, Bool.false_eq_true, if_false]
  rw [hdw, List.reverse_reverse]
  rw [takeWhile_append_all _ _ _
    (fun c' hc' => decide_eq_true (hs c' (List.mem_reverse.mp hc')))]
  have htw : (('/' :: pre.reverse).takeWhile (fun c => decide (c ≠ '/'))) = [] := by
    simp [List.takeWhile_cons]
  rw [htw, List.append_nil, List.reverse_reverse]
  rw [if_neg hne]

/-- `path.Base` strips one trailing separator from a slash-free nonempty
segment. -/
theorem pathBase_trailing_sep (seg : Str) (hne : seg ≠ [])
    (hs : ∀ c ∈ seg, c ≠ '/') :
    pathBase (seg ++ ['/']) = seg := by
  obtain ⟨c, rest, hrev⟩ : ∃ c rest, seg.reverse = c :: rest := by
    cases hsr : seg.reverse with
    | nil =>
      exact absurd (by simpa using congrArg List.reverse hsr) hne
    | cons c rest => exact ⟨c, rest, rfl⟩
  have hcmem : c ∈ seg := by
    rw [← List.mem_reverse, hrev]
    simp
  have hcns : (decide (c = '/')) = false := decide_eq_false (hs c hcmem)
  have hrevfull : (seg ++ ['/']).reverse = '/' :: seg.reverse := by
    rw [List.reverse_append]
    simp
  unfold pathBase
  rw [if_neg (by simp)]
  dsimp only
  have hdw : (seg ++ ['/']).reverse.dropWhile (fun c => decide (c = '/'))
      = seg.reverse := by
    rw [hrevfull, List.dropWhile_cons]
    rw [if_pos (by simp)]
    rw [hrev, List.dropWhile_cons]
    simp only [hcns, Bool.false_eq_true, if_false]
  have htw : seg.reverse.takeWhile (fun c => decide (c ≠ '/')) = seg.reverse := by
    have h0 := takeWhile_append_all (fun c => decide (c ≠ '/')) seg.reverse []
      (fun c' hc' => decide_eq_true (hs c' (List.mem_reverse.mp hc')))
    simpa using h0
  rw [hdw, List.reverse_reverse, htw, List.reverse_reverse, if_neg hne]

/-- Membership in a page's entry sequence comes from an object or from a
common prefix of that page. -/
theorem mem_pageEntriesSpec (e : s3FileInfo) (page : ListPage)
    (h : e ∈ pageEntriesSpec page) :
    (∃ obj ∈ page.contents, e = objEntrySpec obj) ∨
    (∃ cp ∈ page.commonPrefixes, e = cpEntrySpec cp) := by
  rw [pageEntriesSpec, List.mem_append] at h
  rcases h with h | h
  · left
    obtain ⟨obj, hobj, rfl⟩ := List.mem_map.mp h
    exact ⟨obj, hobj, rfl⟩
  · right
    obtain ⟨cp, hcp, rfl⟩ := List.mem_map.mp h
    exact ⟨cp, hcp, rfl⟩

/-- Every successful `Open` is either a file produced by a successful
get-object call or a directory produced by `openDir`. -/
theorem open_ok_shape (s : Client) (raw : Str) (x : FsFile)
    (h : Open s raw = .ok x) :
    (∃ name obj, s.getObject name = .ok obj ∧
      x = .file
        { body := obj.body
          fileInfo := ⟨pathBase name, obj.contentLength, obj.lastModified,
            modeReadOnly⟩ }) ∨
    (∃ p d, x = .dir d ∧ openDir s p = .ok (.dir d)) := by
  unfold Open at h
  cases htn : trimName raw with
  | error e =>
    rw [htn] at h
    exact absurd h (by simp)
  | ok name =>
    rw [htn] at h
    dsimp only at h
    by_cases hroot : name = []
    · rw [if_pos hroot] at h
      right
      obtain ⟨hne, hx⟩ := (openDir_ok_iff s name x).mp h
      exact ⟨name, _, hx, by rw [← hx]; exact h⟩
    · rw [if_neg hroot] at h
      rcases hfm : (s.listPages name).any
          (fun page => page.contents.any (fun obj => obj.key = name)) with _ | _
      <;> rcases hdm : (s.listPages name).any
          (fun page => page.commonPrefixes.any (fun cp => name ++ ['/'] = cp)) with _ | _
      <;> rw [hfm, hdm] at h <;> simp only [Bool.and_self, Bool.and_false,
        Bool.false_and, Bool.and_true, Bool.true_and, Bool.false_eq_true,
        if_false, if_true] at h
      · exact absurd h (by simp)
      · right
        obtain ⟨hne, hx⟩ := (openDir_ok_iff s (name ++ ['/']) x).mp h
        exact ⟨name ++ ['/'], _, hx, by rw [← hx]; exact h⟩
      · left
        unfold openFile at h
        cases hget : s.getObject name with
        | error e =>
          rw [hget] at h
          exact absurd h (by simp)
        | ok obj =>
          rw [hget] at h
          exact ⟨name, obj, hget, (Except.ok.inj h).symm⟩
      · exact absurd h (by simp)

/-- The mode test underlying `IsDir`, exposed on a literal record. -/
theorem IsDir_mk (nm : Str) (sz mt : Int) (md : Nat) :
    s3FileInfo.IsDir ⟨nm, sz, mt, md⟩ = decide (md &&& modeDirBit ≠ 0) := rfl

/-- A node carrying only the read-only permission bits is not a directory. -/
theorem IsDir_readOnly (nm : Str) (sz mt : Int) :
    s3FileInfo.IsDir ⟨nm, sz, mt, modeReadOnly⟩ = false := by
  rw [IsDir_mk]
  decide

/-- A node carrying the read-only bits plus the directory bit is a
directory. -/
theorem IsDir_dirMode (nm : Str) (sz mt : Int) :
    s3FileInfo.IsDir ⟨nm, sz, mt, modeReadOnly ||| modeDirBit⟩ = true := by
  rw [IsDir_mk]
  decide

/-- C9: the entry sequence of every successfully opened directory is exactly
the page-order concatenation — per page all objects in page order, then all
common prefixes in page order, pages in fetch order, with no sorting — where
each object yields a non-directory entry with its size and modification time
copied and each common prefix yields a directory entry of size 0; names are
`path.Base`, which returns the last slash-free segment, with a trailing
separator stripped. -/
theorem openDir_entry_order (s : Client) (p : Str) (d : s3Directory)
    (h : openDir s p = .ok (.dir d)) :
    d.entries = (s.listPages p).flatMap pageEntriesSpec ∧
    (∀ obj : S3Object, (objEntrySpec obj).IsDir = false) ∧
    (∀ cp : Str, (cpEntrySpec cp).IsDir = true) ∧
    (∀ pre seg : Str, seg ≠ [] → (∀ c ∈ seg, c ≠ '/') →
      pathBase (pre ++ ('/' :: seg)) = seg ∧ pathBase (seg ++ ['/']) = seg) := by
  obtain ⟨hne, hx⟩ := (openDir_ok_iff s p (.dir d)).mp h
  refine ⟨?_, ?_, ?_, ?_⟩
  · have := FsFile.dir.inj hx
    rw [this]
  · intro obj
    exact IsDir_readOnly _ _ _
  · intro cp
    exact IsDir_dirMode _ _ _
  · intro pre seg hns hsl
    exact ⟨pathBase_mid_segment pre seg hns hsl, pathBase_trailing_sep seg hns hsl⟩

/-- C9 witness: the entry order at the concrete one-key directory, and the
last-segment property at `"x" ++ "/y"`. -/
theorem openDir_entry_order_witness :
    xDir.entries = (dirClient.listPages (['x', '/'])).flatMap pageEntriesSpec ∧
    pathBase ((['x'] : Str) ++ ('/' :: ['y'])) = ['y'] :=
  ⟨(openDir_entry_order dirClient (['x', '/']) xDir rfl).1,
   ((openDir_entry_order dirClient (['x', '/']) xDir rfl).2.2.2 ['x'] ['y']
     (by decide) (by decide)).1⟩

/-- C10: every metadata record `Open` ever produces — the `Stat` of an opened
file, the `Stat` of an opened directory, and every directory entry — carries
mode `0400` (files and file entries) or `0400 | ModeDir` (directories and
directory entries), the directory bit is set exactly on the directory-typed
nodes, and both modes have permission bits exactly `0400`, so no write or
execute bit is ever set. -/
theorem open_modes (s : Client) (raw : Str) :
    (∀ fl : s3File, Open s raw = .ok (.file fl) →
      fl.Stat.mode = modeReadOnly ∧ fl.Stat.IsDir = false) ∧
    (∀ d : s3Directory, Open s raw = .ok (.dir d) →
      d.Stat.mode = modeReadOnly ||| modeDirBit ∧ d.Stat.IsDir = true ∧
      ∀ e ∈ d.entries,
        (e.IsDir = false ∧ e.mode = modeReadOnly) ∨
        (e.IsDir = true ∧ e.mode = modeReadOnly ||| modeDirBit)) ∧
    modeReadOnly &&& 511 = 256 ∧ (modeReadOnly ||| modeDirBit) &&& 511 = 256 := by
  refine ⟨?_, ?_, by decide, by decide⟩
  · intro fl h
    rcases open_ok_shape s raw _ h with ⟨nm, obj, hget, hfl⟩ | ⟨p, d, hd, -⟩
    · obtain rfl := FsFile.file.inj hfl
      exact ⟨rfl, IsDir_readOnly _ _ _⟩
    · exact absurd hd (by simp)
  · intro d h
    rcases open_ok_shape s raw _ h with ⟨nm, obj, hget, hfl⟩ | ⟨p, d', hd, hdir⟩
    · exact absurd hfl (by simp)
    · obtain rfl := FsFile.dir.inj hd
      obtain ⟨hne, hx⟩ := (openDir_ok_iff s p _).mp hdir
      obtain rfl := FsFile.dir.inj hx
      refine ⟨rfl, IsDir_dirMode _ _ _, ?_⟩
      intro e he
      dsimp only at he
      obtain ⟨pg, hpg, hepg⟩ := List.mem_flatMap.mp he
      rcases mem_pageEntriesSpec e pg hepg with ⟨obj, hobj, rfl⟩ | ⟨cp, hcp, rfl⟩
      · left
        exact ⟨IsDir_readOnly _ _ _, rfl⟩
      · right
        exact ⟨IsDir_dirMode _ _ _, rfl⟩

/-- C10 witness: the mode facts at the concrete directory `Open dirClient
"x"` returns, and at its single entry. -/
theorem open_modes_witness :
    (xDir.Stat.mode = modeReadOnly ||| modeDirBit ∧ xDir.Stat.IsDir = true) ∧
    (((⟨['y'], 1, 1, 256⟩ : s3FileInfo).IsDir = false ∧
        (⟨['y'], 1, 1, 256⟩ : s3FileInfo).mode = modeReadOnly) ∨
      ((⟨['y'], 1, 1, 256⟩ : s3FileInfo).IsDir = true ∧
        (⟨['y'], 1, 1, 256⟩ : s3FileInfo).mode = modeReadOnly ||| modeDirBit)) :=
  ⟨⟨((open_modes dirClient ['x']).2.1 xDir rfl).1,
    ((open_modes dirClient ['x']).2.1 xDir rfl).2.1⟩,
   ((open_modes dirClient ['x']).2.1 xDir rfl).2.2 ⟨['y'], 1, 1, 256⟩
     (by decide)⟩
